import Mathlib

/-!
Verification of the product-id cache and selector of the recommendation service
(`src/recommendation/recommendation_server.py`), as a shallow embedding.

Product ids are opaque equality-comparable values, so definitions are generic
over a type `α` with decidable equality; the request-parsing step, which works
on the characters of the incoming strings, is modelled over `List Char`.

Randomness (`random.random() < 0.5`, `random.sample`) and the catalog RPC are
external inputs: each request step receives the coin draw as a `Bool`, the
catalog answer as an `Option (List α)` (`none` = the RPC raised), and the
sampled index list as a `List Nat`.
-/

namespace RecommendationServer

/-- The bound `MAX_CACHE_SIZE = 10000` from the source. -/
def MAX_CACHE_SIZE : Nat := 10000

/-- The constant `max_responses = 5` from `get_product_list`. -/
def max_responses : Nat := 5

/-- The process-wide mutable state: `cached_ids` and the `first_run` latch. -/
structure ServerState (α : Type) where
  cached_ids : List α
  first_run : Bool
  deriving Repr, DecidableEq

/-- The state at process start: `cached_ids = []`, `first_run = True`. -/
def initialState (α : Type) : ServerState α := ⟨[], true⟩

/-- The merge loop of the refresh path:
`for product_id in response_ids: if product_id not in existing_ids_set:
cached_ids.append(product_id); existing_ids_set.add(product_id)`.
The evolving set `existing_ids_set` always holds exactly the elements of the
accumulator list, so membership is tested on the accumulator. -/
def mergeDedup [DecidableEq α] (cached response_ids : List α) : List α :=
  response_ids.foldl (fun acc product_id =>
    if product_id ∈ acc then acc else acc ++ [product_id]) cached

/-- The size-bound enforcement:
`if len(cached_ids) > MAX_CACHE_SIZE: cached_ids = cached_ids[-MAX_CACHE_SIZE:]`.
In Python, `l[-k:]` (for `0 < k ≤ len l`) is the last `k` elements, i.e.
`l.drop (l.length - k)`. -/
def truncateCache (maxSize : Nat) (l : List α) : List α :=
  if l.length > maxSize then l.drop (l.length - maxSize) else l

/-- One cache refresh: merge the catalog ids into the cache, then truncate. -/
def refreshCache [DecidableEq α] (maxSize : Nat) (cached response_ids : List α) :
    List α :=
  truncateCache maxSize (mergeDedup cached response_ids)

/-- The flag-gated pool computation of `get_product_list`: returns the state
after the call together with `some pool` on success, or `none` when the
catalog RPC raised (the exception propagates to the caller).  On the refresh
branch `first_run = False` is executed before the catalog call, so the latch
is cleared even when the call fails. -/
def getPool [DecidableEq α] (maxSize : Nat) (s : ServerState α)
    (flag coin : Bool) (catalog : Option (List α)) :
    ServerState α × Option (List α) :=
  if flag then
    if coin || s.first_run then
      match catalog with
      | none => (⟨s.cached_ids, false⟩, none)
      | some response_ids =>
          let newCache := refreshCache maxSize s.cached_ids response_ids
          (⟨newCache, false⟩, some newCache)
    else
      (s, some s.cached_ids)
  else
    match catalog with
    | none => (s, none)
    | some response_ids => (s, some response_ids)

/-- Whether this call reaches the catalog-refresh branch of the enabled path:
`if random.random() < 0.5 or first_run`. -/
def refreshPerformed (s : ServerState α) (flag coin : Bool) : Bool :=
  flag && (coin || s.first_run)

/-- External inputs consumed by one request on the pool-computation path. -/
structure RequestInput (α : Type) where
  flag : Bool
  coin : Bool
  catalog : Option (List α)

/-- Run a sequence of requests, threading the server state. -/
def runRequests [DecidableEq α] (maxSize : Nat) (s : ServerState α)
    (reqs : List (RequestInput α)) : ServerState α :=
  reqs.foldl (fun st r => (getPool maxSize st r.flag r.coin r.catalog).1) s

/-- The Python comma split on the character list of a string: the split of
the empty string is a list holding one empty part, and each comma starts a
new (possibly empty) part. -/
def pySplitComma : List Char → List (List Char)
  | [] => [[]]
  | c :: cs =>
      let rest := pySplitComma cs
      if c = ',' then [] :: rest
      else (c :: rest.headD []) :: rest.tail

/-- The exclusion-id parsing of `get_product_list`: join all entries with the
empty separator into `request_product_ids_str`, then split that string at
commas. -/
def parseRequestIds (request_product_ids : List (List Char)) :
    List (List Char) :=
  pySplitComma request_product_ids.flatten

/-- The source line `filtered_products = list(set(product_ids) - set(request_product_ids))`:
a duplicate-free enumeration of the set difference (Python fixes no order on
the result, so any duplicate-free enumeration is a faithful model). -/
def filteredProducts [DecidableEq α] (product_ids request_product_ids : List α) :
    List α :=
  product_ids.dedup.filter (fun x => !(decide (x ∈ request_product_ids)))

/-- The source line `prod_list = [filtered_products[i] for i in indices]` where `indices`
came from `random.sample(range(num_products), num_return)`; out-of-range
indices (which `random.sample` never produces) are dropped. -/
def selectSample (filtered : List α) (indices : List Nat) : List α :=
  indices.filterMap (fun i => filtered[i]?)

/-- The function `check_feature_flag`: ignores its `flag_name` argument and queries the
boolean flag `"recommendationCacheFailure"` with default `False`; the flag
service is passed in as the function `get_boolean_value`. -/
def check_feature_flag (get_boolean_value : String → Bool → Bool)
    (flag_name : String) : Bool :=
  get_boolean_value "recommendationCacheFailure" false

/-- The full `get_product_list` body at `ProductId = List Char`: parse the
exclusion ids, compute the pool (possibly refreshing the cache), filter and
sample.  `none` in the second component models the call raising. -/
def get_product_list (maxSize : Nat) (s : ServerState (List Char))
    (request_product_ids : List (List Char)) (flag coin : Bool)
    (catalog : Option (List (List Char))) (indices : List Nat) :
    ServerState (List Char) × Option (List (List Char)) :=
  let request_ids := parseRequestIds request_product_ids
  match getPool maxSize s flag coin catalog with
  | (s1, none) => (s1, none)
  | (s1, some product_ids) =>
      (s1, some (selectSample (filteredProducts product_ids request_ids) indices))

/-! ### Structure of the merge step -/

/-- The merge step only appends, and everything appended is new: the merged
list is the old cache followed by ids not previously cached. -/
theorem mergeDedup_eq_append [DecidableEq α] (response_ids cached : List α) :
    ∃ news, mergeDedup cached response_ids = cached ++ news ∧
      ∀ x ∈ news, x ∉ cached := by
  induction response_ids generalizing cached with
  | nil => exact ⟨[], by simp [mergeDedup]⟩
  | cons r rs ih =>
      by_cases hr : r ∈ cached
      · obtain ⟨news, h1, h2⟩ := ih cached
        refine ⟨news, ?_, h2⟩
        simpa [mergeDedup, hr] using h1
      · obtain ⟨news, h1, h2⟩ := ih (cached ++ [r])
        refine ⟨r :: news, ?_, ?_⟩
        · simpa [mergeDedup, hr, List.append_assoc] using h1
        · intro x hx
          rcases List.mem_cons.mp hx with rfl | hx
          · exact hr
          · intro hc
            exact h2 x hx (by simp [hc])

/-- The merge step preserves absence of duplicates. -/
theorem mergeDedup_nodup [DecidableEq α] (response_ids cached : List α)
    (h : cached.Nodup) : (mergeDedup cached response_ids).Nodup := by
  induction response_ids generalizing cached with
  | nil => simpa [mergeDedup] using h
  | cons r rs ih =>
      by_cases hr : r ∈ cached
      · simpa [mergeDedup, hr] using ih cached h
      · have h' : (cached ++ [r]).Nodup := by
          simp [List.nodup_append, h, hr]
        simpa [mergeDedup, hr] using ih (cached ++ [r]) h'

/-- Truncation keeps a suffix, hence preserves absence of duplicates. -/
theorem truncateCache_nodup (maxSize : Nat) (l : List α) (h : l.Nodup) :
    (truncateCache maxSize l).Nodup := by
  unfold truncateCache
  split
  · exact h.sublist (List.drop_sublist _ _)
  · exact h

/-- A refresh preserves absence of duplicates. -/
theorem refreshCache_nodup [DecidableEq α] (maxSize : Nat)
    (cached response_ids : List α) (h : cached.Nodup) :
    (refreshCache maxSize cached response_ids).Nodup :=
  truncateCache_nodup maxSize _ (mergeDedup_nodup response_ids cached h)

/-- One request step preserves absence of duplicates in the cache. -/
theorem getPool_nodup [DecidableEq α] (maxSize : Nat) (s : ServerState α)
    (flag coin : Bool) (catalog : Option (List α))
    (h : s.cached_ids.Nodup) :
    ((getPool maxSize s flag coin catalog).1).cached_ids.Nodup := by
  unfold getPool
  split
  · split
    · match catalog with
      | none => exact h
      | some response_ids => exact refreshCache_nodup maxSize _ _ h
    · exact h
  · match catalog with
    | none => exact h
    | some response_ids => exact h

/-- Truncation never leaves the cache above the bound. -/
theorem truncateCache_length_le (maxSize : Nat) (l : List α) :
    (truncateCache maxSize l).length ≤ maxSize := by
  unfold truncateCache
  split
  · rename_i h
    rw [List.length_drop]
    omega
  · rename_i h
    omega

/-! ### Claims -/

/-- C1: starting from the empty cache, after any sequence of requests (each
with arbitrary flag, coin draw and catalog answer) `cached_ids` contains no
duplicate product id. -/
theorem claim_C1_cache_nodup [DecidableEq α] (maxSize : Nat)
    (reqs : List (RequestInput α)) :
    (runRequests maxSize (initialState α) reqs).cached_ids.Nodup := by
  have key : ∀ (rs : List (RequestInput α)) (s : ServerState α),
      s.cached_ids.Nodup → (runRequests maxSize s rs).cached_ids.Nodup := by
    intro rs
    induction rs with
    | nil => exact fun s h => h
    | cons r rs ih =>
        intro s h
        exact ih _ (getPool_nodup maxSize s r.flag r.coin r.catalog h)
  exact key reqs (initialState α) (by simp [initialState])

/-- C2: immediately after a refresh the cache length is at most the bound
(in particular at most `MAX_CACHE_SIZE`), and whenever the merged pool
exceeds the bound the refresh result is exactly the last `maxSize` elements
of the merged pool. -/
theorem claim_C2_cache_bounded [DecidableEq α] (maxSize : Nat)
    (cached response_ids : List α) :
    (refreshCache maxSize cached response_ids).length ≤ maxSize ∧
    (refreshCache MAX_CACHE_SIZE cached response_ids).length ≤ MAX_CACHE_SIZE ∧
    ((mergeDedup cached response_ids).length > maxSize →
      refreshCache maxSize cached response_ids =
        (mergeDedup cached response_ids).drop
          ((mergeDedup cached response_ids).length - maxSize)) := by
  refine ⟨truncateCache_length_le _ _, truncateCache_length_le _ _, ?_⟩
  intro h
  simp [refreshCache, truncateCache, h]

/-- Witness for C2 at `maxSize = 2`, empty cache, catalog `[1,2,3]`. -/
theorem claim_C2_witness :
    (mergeDedup ([] : List Nat) [1, 2, 3]).length > 2 ∧
    refreshCache 2 ([] : List Nat) [1, 2, 3] =
      (mergeDedup ([] : List Nat) [1, 2, 3]).drop
        ((mergeDedup ([] : List Nat) [1, 2, 3]).length - 2) :=
  ⟨by decide, (claim_C2_cache_bounded 2 [] [1, 2, 3]).2.2 (by decide)⟩

/-- C3: the two spec scenarios at `MAX_CACHE_SIZE = 3` (ids `pₖ` rendered as
the numbers `k`): refreshing the empty cache with `[p1,p2,p3,p4]` yields
`[p2,p3,p4]`; refreshing `[p1,p2,p3]` with `[p3,p5]` merges to `[p1,p2,p3,p5]`
(only `p5` is appended) and truncates to `[p2,p3,p5]`. -/
theorem claim_C3_scenarios :
    refreshCache 3 ([] : List Nat) [1, 2, 3, 4] = [2, 3, 4] ∧
    mergeDedup [1, 2, 3] [3, 5] = [1, 2, 3, 5] ∧
    refreshCache 3 [1, 2, 3] [3, 5] = [2, 3, 5] := by
  decide

/-- C5: the first-run latch: it starts `true`; while it is `true` every
enabled-flag request reaches the catalog-refresh branch whatever the coin
shows; reaching that branch clears it even when the catalog call fails
(`catalog` arbitrary, including `none`); and once `false` no request of any
kind sets it back. -/
theorem claim_C5_first_run_latch [DecidableEq α] (maxSize : Nat)
    (s : ServerState α) (coin : Bool) (catalog : Option (List α)) :
    (initialState α).first_run = true ∧
    (s.first_run = true → refreshPerformed s true coin = true) ∧
    ((coin || s.first_run) = true →
      ((getPool maxSize s true coin catalog).1).first_run = false) ∧
    (∀ flag, s.first_run = false →
      ((getPool maxSize s flag coin catalog).1).first_run = false) := by
  refine ⟨rfl, ?_, ?_, ?_⟩
  · intro h
    simp [refreshPerformed, h]
  · intro h
    cases catalog <;> simp [getPool, h]
  · intro flag h
    cases flag <;> cases coin <;> cases catalog <;> simp [getPool, h]

/-- Witness for C5: concrete first-run and latched states. -/
theorem claim_C5_witness :
    refreshPerformed (⟨[], true⟩ : ServerState Nat) true false = true ∧
    ((getPool 3 (⟨[], true⟩ : ServerState Nat) true false none).1).first_run
      = false ∧
    ((getPool 3 (⟨[7], false⟩ : ServerState Nat) true true
        (some [1])).1).first_run = false := by
  have h1 := claim_C5_first_run_latch (α := Nat) 3 ⟨[], true⟩ false none
  have h2 := claim_C5_first_run_latch (α := Nat) 3 ⟨[7], false⟩ true (some [1])
  exact ⟨h1.2.1 rfl, h1.2.2.1 (by decide), h2.2.2.2 true rfl⟩

/-- C6: with the flag `false` the request leaves the whole state
(`cached_ids` and `first_run`) untouched, and on a successful catalog call
the pool handed to selection is exactly the live catalog result. -/
theorem claim_C6_disabled_bypass [DecidableEq α] (maxSize : Nat)
    (s : ServerState α) (coin : Bool) (catalog : Option (List α)) :
    (getPool maxSize s false coin catalog).1 = s ∧
    ∀ live : List α, getPool maxSize s false coin (some live) = (s, some live) := by
  constructor
  · cases catalog <;> rfl
  · intro live
    rfl

/-- C8: a failed catalog call on the refresh path propagates (`none` result)
and leaves `cached_ids` exactly unchanged. -/
theorem claim_C8_failure_propagates [DecidableEq α] (maxSize : Nat)
    (s : ServerState α) (coin : Bool) (h : (coin || s.first_run) = true) :
    (getPool maxSize s true coin none).2 = none ∧
    ((getPool maxSize s true coin none).1).cached_ids = s.cached_ids := by
  simp [getPool, h]

/-- Witness for C8: a latched state with a cached pool, coin forcing refresh. -/
theorem claim_C8_witness :
    (getPool 3 (⟨[1, 2], false⟩ : ServerState Nat) true true none).2 = none ∧
    ((getPool 3 (⟨[1, 2], false⟩ : ServerState Nat) true true
        none).1).cached_ids = [1, 2] :=
  claim_C8_failure_propagates 3 ⟨[1, 2], false⟩ true rfl

/-- C9: `check_feature_flag` ignores its `flag_name` argument: any two
argument strings give the same result, namely the answer of the flag service for
`"recommendationCacheFailure"` with default `false`. -/
theorem claim_C9_flag_name_ignored (get_boolean_value : String → Bool → Bool)
    (s t : String) :
    check_feature_flag get_boolean_value s =
      check_feature_flag get_boolean_value t ∧
    check_feature_flag get_boolean_value s =
      get_boolean_value "recommendationCacheFailure" false :=
  ⟨rfl, rfl⟩

/-- Truncation is a front drop. -/
theorem truncateCache_eq_drop (maxSize : Nat) (l : List α) :
    ∃ k, truncateCache maxSize l = l.drop k := by
  unfold truncateCache
  split
  · exact ⟨l.length - maxSize, rfl⟩
  · exact ⟨0, rfl⟩

/-- C7: a refresh equals the old cache with fresh ids appended at the back
and some front prefix dropped; consequently the old ids that survive appear
in the new cache in their old relative order (a sublist of the old cache). -/
theorem claim_C7_refresh_preserves_order [DecidableEq α] (maxSize : Nat)
    (cached response_ids : List α) :
    (∃ news k, (∀ x ∈ news, x ∉ cached) ∧
      refreshCache maxSize cached response_ids = (cached ++ news).drop k) ∧
    ((refreshCache maxSize cached response_ids).filter
        (fun x => decide (x ∈ cached))).Sublist cached := by
  obtain ⟨news, hm, hnew⟩ := mergeDedup_eq_append response_ids cached
  obtain ⟨k, hk⟩ := truncateCache_eq_drop maxSize (mergeDedup cached response_ids)
  have hr : refreshCache maxSize cached response_ids = (cached ++ news).drop k := by
    rw [refreshCache, hk, hm]
  refine ⟨⟨news, k, hnew, hr⟩, ?_⟩
  rw [hr]
  have hsub : List.Sublist
      (((cached ++ news).drop k).filter (fun x => decide (x ∈ cached)))
      ((cached ++ news).filter (fun x => decide (x ∈ cached))) :=
    (List.drop_sublist k (cached ++ news)).filter _
  have heq : (cached ++ news).filter (fun x => decide (x ∈ cached)) = cached := by
    rw [List.filter_append]
    have h1 : cached.filter (fun x => decide (x ∈ cached)) = cached :=
      List.filter_eq_self.mpr (fun a ha => by simpa using ha)
    have h2 : news.filter (fun x => decide (x ∈ cached)) = [] :=
      List.filter_eq_nil_iff.mpr (fun a ha => by simpa using hnew a ha)
    rw [h1, h2, List.append_nil]
  rwa [heq] at hsub

/-- The list `filtered_products` never holds duplicates. -/
theorem filteredProducts_nodup [DecidableEq α] (P E : List α) :
    (filteredProducts P E).Nodup :=
  (List.nodup_dedup P).filter _

/-- Membership in `filtered_products` is membership in the set difference. -/
theorem mem_filteredProducts [DecidableEq α] {P E : List α} {x : α} :
    x ∈ filteredProducts P E ↔ x ∈ P ∧ x ∉ E := by
  simp [filteredProducts, List.mem_filter, List.mem_dedup]

/-- The list `filtered_products` has as many entries as the set difference `P − E`. -/
theorem filteredProducts_length [DecidableEq α] (P E : List α) :
    (filteredProducts P E).length = (P.toFinset \ E.toFinset).card := by
  have hset : (filteredProducts P E).toFinset = P.toFinset \ E.toFinset := by
    ext a
    simp [mem_filteredProducts, Finset.mem_sdiff]
  rw [← List.toFinset_card_of_nodup (filteredProducts_nodup P E), hset]

/-- With all indices in range, sampling returns one entry per index. -/
theorem selectSample_length (filtered : List α) (indices : List Nat)
    (hlt : ∀ i ∈ indices, i < filtered.length) :
    (selectSample filtered indices).length = indices.length := by
  induction indices with
  | nil => rfl
  | cons i is ih =>
      have hi0 : i < filtered.length := hlt i (by simp)
      have hi : filtered[i]? = some filtered[i] :=
        List.getElem?_eq_getElem hi0
      have hrec := ih (fun j hj => hlt j (by simp [hj]))
      simp only [selectSample, List.filterMap_cons, hi, List.length_cons]
      simpa [selectSample] using hrec

/-- Everything sampled is a member of the candidate list. -/
theorem selectSample_mem {filtered : List α} {indices : List Nat} {x : α}
    (hx : x ∈ selectSample filtered indices) : x ∈ filtered := by
  obtain ⟨i, _, hi⟩ := List.mem_filterMap.mp hx
  exact List.getElem?_mem hi

/-- Distinct in-range indices into a duplicate-free candidate list sample
pairwise-distinct entries. -/
theorem selectSample_nodup (filtered : List α) (indices : List Nat)
    (hf : filtered.Nodup) (hnd : indices.Nodup)
    (hlt : ∀ i ∈ indices, i < filtered.length) :
    (selectSample filtered indices).Nodup := by
  induction indices with
  | nil => exact List.nodup_nil
  | cons i is ih =>
      have hi : i < filtered.length := hlt i (by simp)
      have hrec := ih hnd.of_cons (fun j hj => hlt j (by simp [hj]))
      have hmem : filtered[i] ∉ selectSample filtered is := by
        intro hcon
        obtain ⟨j, hj, hjeq⟩ := List.mem_filterMap.mp hcon
        have hjlt : j < filtered.length := hlt j (by simp [hj])
        rw [List.getElem?_eq_getElem hjlt] at hjeq
        have hji : j = i := (hf.getElem_inj_iff).mp (Option.some_inj.mp hjeq)
        exact (List.nodup_cons.mp hnd).1 (hji ▸ hj)
      have hstep : selectSample filtered (i :: is) =
          filtered[i] :: selectSample filtered is := by
        simp [selectSample, List.filterMap_cons, List.getElem?_eq_getElem hi]
      rw [hstep]
      exact List.nodup_cons.mpr ⟨hmem, hrec⟩

/-- C4: for any pool `P`, exclusions `E`, and index draw `I` of the shape
`random.sample` produces (distinct, in range, of size
`min max_responses |P−E|`), the selection has exactly `min 5 |P−E|` entries,
all members of `P − E`, with no duplicates; an empty candidate set gives the
empty sequence. -/
theorem claim_C4_selector_correct [DecidableEq α] (P E : List α)
    (I : List Nat) (hnd : I.Nodup)
    (hlt : ∀ i ∈ I, i < (filteredProducts P E).length)
    (hlen : I.length = min max_responses (filteredProducts P E).length) :
    (selectSample (filteredProducts P E) I).length =
      min 5 (P.toFinset \ E.toFinset).card ∧
    (∀ x ∈ selectSample (filteredProducts P E) I, x ∈ P ∧ x ∉ E) ∧
    (selectSample (filteredProducts P E) I).Nodup ∧
    ((P.toFinset \ E.toFinset).card = 0 →
      selectSample (filteredProducts P E) I = []) := by
  have hlength : (selectSample (filteredProducts P E) I).length =
      min 5 (P.toFinset \ E.toFinset).card := by
    rw [selectSample_length _ _ hlt, hlen, filteredProducts_length,
      max_responses]
  refine ⟨hlength, ?_, ?_, ?_⟩
  · intro x hx
    exact mem_filteredProducts.mp (selectSample_mem hx)
  · exact selectSample_nodup _ _ (filteredProducts_nodup P E) hnd hlt
  · intro hcard
    have : (selectSample (filteredProducts P E) I).length = 0 := by
      rw [hlength, hcard]
      simp
    exact List.length_eq_zero.mp this

/-- Witness for C4: pool `[1,2,3]`, exclusions `[2]`, indices `[1,0]`. -/
theorem claim_C4_witness :
    (selectSample (filteredProducts [1, 2, 3] [2]) [1, 0]).length =
      min 5 (([1, 2, 3] : List Nat).toFinset \ ([2] : List Nat).toFinset).card ∧
    (∀ x ∈ selectSample (filteredProducts [1, 2, 3] [2]) [1, 0],
      x ∈ ([1, 2, 3] : List Nat) ∧ x ∉ ([2] : List Nat)) ∧
    (selectSample (filteredProducts [1, 2, 3] [2]) [1, 0]).Nodup ∧
    ((([1, 2, 3] : List Nat).toFinset \ ([2] : List Nat).toFinset).card = 0 →
      selectSample (filteredProducts [1, 2, 3] [2]) [1, 0] = []) :=
  claim_C4_selector_correct [1, 2, 3] [2] [1, 0] (by decide) (by decide)
    (by decide)

/-- A comma-free string splits into the single part holding the whole
string (as the Python comma split does on a comma-free string). -/
theorem pySplitComma_no_comma (s : List Char) (h : ',' ∉ s) :
    pySplitComma s = [s] := by
  induction s with
  | nil => rfl
  | cons c cs ih =>
      have hc : ¬(c = ',') := fun hcc => h (by simp [hcc])
      have hcs : pySplitComma cs = [cs] := ih (fun hm => h (by simp [hm]))
      simp [pySplitComma, hc, hcs]

/-- C10: the exclusion parsing concatenates all entries and splits at commas:
comma-free entries collapse into one exclusion id; the empty request parses
to the exclusion list holding exactly the empty string, which filters nothing
out of a pool unless the empty string is itself a pool member. -/
theorem claim_C10_parsing (entries : List (List Char))
    (hnc : ∀ e ∈ entries, ',' ∉ e) (pool : List (List Char))
    (hpool : [] ∉ pool) :
    parseRequestIds entries = [entries.flatten] ∧
    parseRequestIds [] = [[]] ∧
    filteredProducts pool (parseRequestIds []) = pool.dedup := by
  refine ⟨?_, rfl, ?_⟩
  · have hflat : ',' ∉ entries.flatten := by
      intro hm
      obtain ⟨e, he, hce⟩ := List.mem_flatten.mp hm
      exact hnc e he hce
    exact pySplitComma_no_comma entries.flatten hflat
  · have : parseRequestIds [] = [[]] := rfl
    rw [this]
    apply List.filter_eq_self.mpr
    intro a ha
    have hap : a ∈ pool := List.mem_dedup.mp ha
    have hane : a ≠ [] := fun hae => hpool (hae ▸ hap)
    simp [hane]

/-- Witness for C10: two comma-free entries merge into one id, and the empty
request excludes nothing from the pool `[['x']]`. -/
theorem claim_C10_witness :
    parseRequestIds [['a', 'b'], ['c']] = [['a', 'b', 'c']] ∧
    parseRequestIds [] = [[]] ∧
    filteredProducts [['x']] (parseRequestIds []) = [['x']].dedup :=
  claim_C10_parsing [['a', 'b'], ['c']] (by decide) [['x']] (by decide)

end RecommendationServer
